import Mathlib

/-!
Verification of the kanban frontend's persistence and reordering core.

The development shallowly embeds the JavaScript source:

* `DragUtils` — the pure ordered-collection functions of
  `dragUtils.js` (`reorder`, `move`, `updatePositions`) and the
  `DragDropService` wrappers `reorderItems` / `moveItem`.
* `DragDrop` — the drag state machine of `DragDropService.js`.
* `Adapter` — the storage-adapter `delete` operations of
  `LocalStorageAdapter.js` and `IndexedDBAdapter.js`.
* `CardStore` — the zustand card store of `cardStore.js` with its
  single-timer debounced persistence (`createDebouncedPersist`).
* `Cascade` — the board and column delete paths of `Sidebar.js`,
  `BoardPage.js` and the state/store actions.

JavaScript arrays become `List`; `Array.prototype.splice` becomes the
take/drop based `spliceInsert` / `spliceRemoveOne` below (splice clamps
an out-of-range index to the array length, which `List.take`/`List.drop`
also do).  Asynchronous storage calls are sequenced explicitly: the
event-loop interleavings the claims speak about (schedule, then the
debounce timer fires) are modelled as explicit state-transition
functions.
-/

namespace DragUtils

/-- A record carried by the drag-and-drop helpers: the fields the
reordering protocol reads and writes (`id` for identity, `position` for
order).  Other card fields are untouched by these functions. -/
structure Item where
  id : String
  position : Int
deriving DecidableEq, Repr

/-- Source `list.splice(i, 0, a)` — insert `a` at index `i`, clamped to the
array length. -/
def spliceInsert (l : List α) (i : Nat) (a : α) : List α :=
  l.take i ++ a :: l.drop i

/-- Source `list.splice(i, 1)` — remove the element at index `i` (no element is
removed when `i` is out of range). -/
def spliceRemoveOne (l : List α) (i : Nat) : List α :=
  l.take i ++ l.drop (i + 1)

/-- Source `reorder(list, startIndex, endIndex)` from `dragUtils.js`: remove the
element at `startIndex`, reinsert it at `endIndex`.  The source reads
`const [removed] = result.splice(startIndex, 1)`; for an out-of-range
`startIndex` JavaScript would thread `undefined`, a case no caller
exercises and every theorem below excludes by hypothesis. -/
def reorder (list : List α) (startIndex endIndex : Nat) : List α :=
  match list[startIndex]? with
  | some removed => spliceInsert (spliceRemoveOne list startIndex) endIndex removed
  | none => list

/-- Result record of `move` (`{ source, destination }`). -/
structure MoveResult (α : Type) where
  source : List α
  destination : List α
deriving DecidableEq, Repr

/-- Source `move(source, destination, sourceIndex, destinationIndex)` from
`dragUtils.js`: remove the element at `sourceIndex` from `source` and
insert it at `destinationIndex` in `destination`. -/
def move (source destination : List α) (sourceIndex destinationIndex : Nat) :
    MoveResult α :=
  match source[sourceIndex]? with
  | some removed =>
      ⟨spliceRemoveOne source sourceIndex,
       spliceInsert destination destinationIndex removed⟩
  | none => ⟨source, destination⟩

/-- Source `updatePositions(items)` from `dragUtils.js`: overwrite every
element's `position` with its index. -/
def updatePositions (items : List Item) : List Item :=
  items.mapIdx (fun index item => { item with position := index })

/-- Source `DragDropService.reorderItems`: `reorder` then `updatePositions`. -/
def reorderItems (items : List Item) (sourceIndex destinationIndex : Nat) :
    List Item :=
  updatePositions (reorder items sourceIndex destinationIndex)

/-- Source `DragDropService.moveItem`: `move`, then `updatePositions` on both
returned lists. -/
def moveItem (sourceItems destItems : List Item)
    (sourceIndex destinationIndex : Nat) : MoveResult Item :=
  let r := move sourceItems destItems sourceIndex destinationIndex
  ⟨updatePositions r.source, updatePositions r.destination⟩

/-- The sequence of `position` fields, in sequence order. -/
def positionsOf (l : List Item) : List Int :=
  l.map Item.position

/-- The sequence of `id` fields, in sequence order. -/
def idsOf (l : List Item) : List String :=
  l.map Item.id

/-- The values 0, 1, ..., n-1 in order, as `position` values. -/
def posRange (n : Nat) : List Int :=
  (List.range n).map (fun (k : Nat) => (k : Int))

end DragUtils

namespace DragUtils

theorem length_spliceInsert (l : List α) (i : Nat) (a : α) :
    (spliceInsert l i a).length = l.length + 1 := by
  simp [spliceInsert]
  omega

theorem length_spliceRemoveOne (l : List α) (i : Nat) (h : i < l.length) :
    (spliceRemoveOne l i).length = l.length - 1 := by
  simp [spliceRemoveOne]
  omega

theorem perm_spliceInsert (l : List α) (i : Nat) (a : α) :
    (spliceInsert l i a).Perm (a :: l) := by
  have hmid : (l.take i ++ a :: l.drop i).Perm (a :: (l.take i ++ l.drop i)) :=
    List.perm_middle
  rw [spliceInsert]
  exact hmid.trans (by rw [List.take_append_drop])

theorem eq_take_getElem_drop (l : List α) (i : Nat) (h : i < l.length) :
    l = l.take i ++ l[i] :: l.drop (i + 1) := by
  conv_lhs => rw [← List.take_append_drop i l, List.drop_eq_getElem_cons h]

theorem perm_cons_spliceRemoveOne (l : List α) (i : Nat) (h : i < l.length) :
    l.Perm (l[i] :: spliceRemoveOne l i) := by
  conv_lhs => rw [eq_take_getElem_drop l i h]
  exact List.perm_middle

theorem reorder_perm (l : List α) (i j : Nat) (h : i < l.length) :
    (reorder l i j).Perm l := by
  have hget : l[i]? = some l[i] := List.getElem?_eq_getElem h
  rw [reorder, hget]
  exact ((perm_spliceInsert _ _ _).trans (perm_cons_spliceRemoveOne l i h).symm)

theorem spliceRemoveOne_spliceInsert (l : List α) (i : Nat) (a : α) (h : i ≤ l.length) :
    spliceRemoveOne (spliceInsert l i a) i = l := by
  have hlen : (l.take i).length = i := by simp; omega
  have h1 : spliceInsert l i a = (l.take i ++ [a]) ++ l.drop i := by
    simp [spliceInsert]
  have hlen2 : (l.take i ++ [a]).length = i + 1 := by simp; omega
  rw [spliceRemoveOne, h1, List.take_append_of_le_length (by omega),
    List.take_append_of_le_length (le_of_eq hlen.symm), List.take_take,
    Nat.min_self, List.drop_left' hlen2, List.take_append_drop]

theorem getElem?_spliceInsert (l : List α) (i : Nat) (a : α) (h : i ≤ l.length) :
    (spliceInsert l i a)[i]? = some a := by
  have hlen : (l.take i).length = i := by simp; omega
  rw [spliceInsert, List.getElem?_append_right (by omega), hlen]
  simp

theorem spliceInsert_spliceRemoveOne (l : List α) (i : Nat) (h : i < l.length) :
    spliceInsert (spliceRemoveOne l i) i l[i] = l := by
  have hlen : (l.take i).length = i := by simp; omega
  rw [spliceRemoveOne, spliceInsert,
    List.take_append_of_le_length (le_of_eq hlen.symm), List.take_take,
    Nat.min_self, List.drop_left' hlen]
  exact (eq_take_getElem_drop l i h).symm

theorem length_reorder (l : List α) (i j : Nat) (h : i < l.length) :
    (reorder l i j).length = l.length := by
  rw [reorder, List.getElem?_eq_getElem h, length_spliceInsert,
    length_spliceRemoveOne _ _ h]
  omega

theorem reorder_reorder (l : List α) (i j : Nat) (hi : i < l.length)
    (hj : j < l.length) : reorder (reorder l i j) j i = l := by
  have hget : l[i]? = some l[i] := List.getElem?_eq_getElem hi
  have hjle : j ≤ (spliceRemoveOne l i).length := by
    rw [length_spliceRemoveOne l i hi]; omega
  have h1 : reorder l i j = spliceInsert (spliceRemoveOne l i) j l[i] := by
    rw [reorder, hget]
  rw [h1, reorder, getElem?_spliceInsert _ _ _ hjle,
    spliceRemoveOne_spliceInsert _ _ _ hjle]
  exact spliceInsert_spliceRemoveOne l i hi

theorem map_spliceInsert (f : α → β) (l : List α) (i : Nat) (a : α) :
    (spliceInsert l i a).map f = spliceInsert (l.map f) i (f a) := by
  simp [spliceInsert]

theorem map_spliceRemoveOne (f : α → β) (l : List α) (i : Nat) :
    (spliceRemoveOne l i).map f = spliceRemoveOne (l.map f) i := by
  simp [spliceRemoveOne]

theorem map_reorder (f : α → β) (l : List α) (i j : Nat) :
    (reorder l i j).map f = reorder (l.map f) i j := by
  rw [reorder, reorder]
  cases h : l[i]? with
  | none => simp [List.getElem?_map, h]
  | some a => simp [List.getElem?_map, h, map_spliceInsert, map_spliceRemoveOne]

theorem mapIdx_map_id (l : List Item) (f : Nat → Item → Int) :
    (l.mapIdx (fun i it => { it with position := f i it })).map Item.id =
      l.map Item.id := by
  induction l generalizing f with
  | nil => rfl
  | cons a l ih => simp [List.mapIdx_cons, ih]

theorem mapIdx_map_position (l : List Item) (f : Nat → Int) :
    (l.mapIdx (fun i it => { it with position := f i })).map Item.position =
      (List.range l.length).map f := by
  induction l generalizing f with
  | nil => rfl
  | cons a l ih =>
      simp only [List.mapIdx_cons, List.map_cons, ih, List.length_cons,
        List.range_succ_eq_map, List.map_map]
      rfl

theorem length_updatePositions (l : List Item) :
    (updatePositions l).length = l.length := by
  have h := congrArg List.length (mapIdx_map_id l (fun i _ => (i : Int)))
  simp only [List.length_map] at h
  exact h

theorem idsOf_updatePositions (l : List Item) :
    idsOf (updatePositions l) = idsOf l := by
  simpa [idsOf, updatePositions] using mapIdx_map_id l (fun i _ => (i : Int))

theorem positionsOf_updatePositions (l : List Item) :
    positionsOf (updatePositions l) = posRange l.length := by
  simpa [positionsOf, updatePositions, posRange] using
    mapIdx_map_position l (fun i => (i : Int))

end DragUtils

namespace DragUtils

/-- C5: for every input sequence and valid indices, the sequences
returned by `reorderItems` (reorder-then-renumber) and by `moveItem`
(move-then-renumber) carry `position` fields that are exactly
`{0, 1, ..., n-1}` in sequence order — no gaps, no duplicates — where
`n` is the respective output sequence's length. -/
theorem reorderItems_moveItem_positions_contiguous
    (items src dst : List Item) (i j k m : Nat)
    (hi : i < items.length) (hk : k < src.length) :
    positionsOf (reorderItems items i j) =
      posRange (reorderItems items i j).length ∧
    positionsOf (moveItem src dst k m).source =
      posRange (moveItem src dst k m).source.length ∧
    positionsOf (moveItem src dst k m).destination =
      posRange (moveItem src dst k m).destination.length := by
  have hre : reorderItems items i j = updatePositions (reorder items i j) := rfl
  have hms : (moveItem src dst k m).source =
      updatePositions (move src dst k m).source := rfl
  have hmd : (moveItem src dst k m).destination =
      updatePositions (move src dst k m).destination := rfl
  refine ⟨?_, ?_, ?_⟩
  · rw [hre, positionsOf_updatePositions, length_updatePositions]
  · rw [hms, positionsOf_updatePositions, length_updatePositions]
  · rw [hmd, positionsOf_updatePositions, length_updatePositions]

/-- Witness for `reorderItems_moveItem_positions_contiguous` at a
concrete input. -/
theorem reorderItems_moveItem_positions_contiguous_witness :
    (0 : Nat) < ([⟨"a", 0⟩, ⟨"b", 1⟩] : List Item).length ∧
    (0 : Nat) < ([⟨"x", 0⟩] : List Item).length ∧
    positionsOf (reorderItems [⟨"a", 0⟩, ⟨"b", 1⟩] 0 1) =
      posRange (reorderItems [⟨"a", 0⟩, ⟨"b", 1⟩] 0 1).length ∧
    positionsOf (moveItem [⟨"x", 0⟩] [⟨"y", 0⟩] 0 0).source =
      posRange (moveItem [⟨"x", 0⟩] [⟨"y", 0⟩] 0 0).source.length ∧
    positionsOf (moveItem [⟨"x", 0⟩] [⟨"y", 0⟩] 0 0).destination =
      posRange (moveItem [⟨"x", 0⟩] [⟨"y", 0⟩] 0 0).destination.length := by
  refine ⟨by decide, by decide, ?_⟩
  exact reorderItems_moveItem_positions_contiguous
    [⟨"a", 0⟩, ⟨"b", 1⟩] [⟨"x", 0⟩] [⟨"y", 0⟩] 0 1 0 0 (by decide) (by decide)

/-- C6: reordering the 3-card sequence `[A, B, C]` by moving index 0 to
index 2 and renumbering yields `[B, C, A]` with positions `[0, 1, 2]` in
that order. -/
theorem reorderItems_three_card_scenario :
    reorderItems [⟨"A", 0⟩, ⟨"B", 1⟩, ⟨"C", 2⟩] 0 2 =
      [⟨"B", 0⟩, ⟨"C", 1⟩, ⟨"A", 2⟩] := by
  decide

theorem map_id_updatePositions (l : List Item) :
    (updatePositions l).map Item.id = l.map Item.id :=
  idsOf_updatePositions l

/-- C7: applying renumber-after-reorder twice with inverse index pairs
`(i, j)` then `(j, i)` returns a sequence whose id order equals the
original's, for any valid `i, j < len(seq)`. -/
theorem reorderItems_round_trip (l : List Item) (i j : Nat)
    (hi : i < l.length) (hj : j < l.length) :
    idsOf (reorderItems (reorderItems l i j) j i) = idsOf l := by
  simp only [reorderItems, idsOf]
  rw [map_id_updatePositions, map_reorder, map_id_updatePositions, map_reorder]
  exact reorder_reorder (l.map Item.id) i j (by simpa using hi) (by simpa using hj)

/-- Witness for `reorderItems_round_trip` at a concrete input. -/
theorem reorderItems_round_trip_witness :
    (0 : Nat) < ([⟨"a", 0⟩, ⟨"b", 1⟩, ⟨"c", 2⟩] : List Item).length ∧
    (2 : Nat) < ([⟨"a", 0⟩, ⟨"b", 1⟩, ⟨"c", 2⟩] : List Item).length ∧
    idsOf (reorderItems (reorderItems [⟨"a", 0⟩, ⟨"b", 1⟩, ⟨"c", 2⟩] 0 2) 2 0) =
      idsOf [⟨"a", 0⟩, ⟨"b", 1⟩, ⟨"c", 2⟩] :=
  ⟨by decide, by decide,
    reorderItems_round_trip [⟨"a", 0⟩, ⟨"b", 1⟩, ⟨"c", 2⟩] 0 2
      (by decide) (by decide)⟩

/-- C10 (implicit): for a valid source index, `reorder` returns a
permutation of its input, and `move` preserves the combined multiset of
the two lists while transferring exactly one element from source to
destination. -/
theorem reorder_move_preserve_elements {α : Type} (l src dst : List α)
    (i j k m : Nat) (hi : i < l.length) (hk : k < src.length) :
    (reorder l i j).Perm l ∧
    ((move src dst k m).source ++ (move src dst k m).destination).Perm
      (src ++ dst) ∧
    (move src dst k m).source.length + 1 = src.length ∧
    (move src dst k m).destination.length = dst.length + 1 := by
  have hget : src[k]? = some src[k] := List.getElem?_eq_getElem hk
  have hmv : move src dst k m =
      ⟨spliceRemoveOne src k, spliceInsert dst m src[k]⟩ := by
    rw [move, hget]
  refine ⟨reorder_perm l i j hi, ?_, ?_, ?_⟩
  · rw [hmv]
    refine ((perm_spliceInsert dst m src[k]).append_left _).trans ?_
    refine (List.perm_middle).trans ?_
    exact ((perm_cons_spliceRemoveOne src k hk).append_right dst).symm
  · rw [hmv]
    have h := length_spliceRemoveOne src k hk
    simp only [h]
    omega
  · rw [hmv]
    exact length_spliceInsert dst m src[k]

/-- Witness for `reorder_move_preserve_elements` at a concrete input. -/
theorem reorder_move_preserve_elements_witness :
    (0 : Nat) < ([10, 20, 30] : List Nat).length ∧
    (1 : Nat) < ([1, 2] : List Nat).length ∧
    (reorder [10, 20, 30] 0 2).Perm [10, 20, 30] ∧
    ((move [1, 2] [7] 1 0).source ++ (move [1, 2] [7] 1 0).destination).Perm
      ([1, 2] ++ [7]) ∧
    (move [1, 2] [7] 1 0).source.length + 1 = ([1, 2] : List Nat).length ∧
    (move [1, 2] [7] 1 0).destination.length = ([7] : List Nat).length + 1 :=
  ⟨by decide, by decide,
    reorder_move_preserve_elements [10, 20, 30] [1, 2] [7] 0 2 1 0
      (by decide) (by decide)⟩

end DragUtils

namespace DragDrop

open DragUtils (Item)

/-- The `this.dragState` record of `DragDropService.js`. -/
structure DragState where
  isDragging : Bool
  draggedItem : Option Item
  dragType : Option String
  sourceId : Option String
deriving DecidableEq, Repr

/-- The state set by the constructor and restored by `endDrag`. -/
def idleState : DragState :=
  ⟨false, none, none, none⟩

/-- Source `startDrag(item, type, sourceId)`: idle → dragging, capturing the
item, its type tag and the source container id. -/
def startDrag (item : Item) (dragType sourceId : String) : DragState :=
  ⟨true, some item, some dragType, some sourceId⟩

/-- The move descriptor built by `handleDrop` and handed to the `drop`
subscribers. -/
structure DropResult where
  item : Option Item
  dragType : Option String
  sourceId : Option String
  destinationId : String
  destinationIndex : Nat
deriving DecidableEq, Repr

/-- Everything one `handleDrop` call produces: its return value, the
service's drag state afterwards, and the `drop` notifications delivered
to subscribers.  `handleDrop` itself never touches the entity stores;
a store mutation can only originate from a delivered notification, so
an empty notification list means no store is reached. -/
structure DropOutcome where
  result : Option DropResult
  state : DragState
  notifications : List DropResult
deriving DecidableEq, Repr

/-- Source `handleDrop(destinationId, destinationIndex)` from
`DragDropService.js`: `if (!this.dragState.isDragging) return null`;
otherwise build the descriptor from the captured drag state, notify the
listeners and return it.  Neither branch writes `this.dragState`. -/
def handleDrop (st : DragState) (destinationId : String)
    (destinationIndex : Nat) : DropOutcome :=
  if st.isDragging = false then ⟨none, st, []⟩
  else
    let result : DropResult :=
      ⟨st.draggedItem, st.dragType, st.sourceId, destinationId, destinationIndex⟩
    ⟨some result, st, [result]⟩

/-- C9: a `handleDrop` call made while the coordinator is idle (no drag
in progress) returns `null` and has no effect: the drag state is
unchanged and no subscriber is notified, so no store can be mutated. -/
theorem handleDrop_idle_noop (st : DragState) (destinationId : String)
    (destinationIndex : Nat) (h : st.isDragging = false) :
    handleDrop st destinationId destinationIndex = ⟨none, st, []⟩ := by
  simp [handleDrop, h]

/-- Witness for `handleDrop_idle_noop` at the concrete idle state. -/
theorem handleDrop_idle_noop_witness :
    idleState.isDragging = false ∧
    handleDrop idleState "column-2" 1 = ⟨none, idleState, []⟩ :=
  ⟨rfl, handleDrop_idle_noop idleState "column-2" 1 rfl⟩

end DragDrop

namespace Adapter

/-- A stored record: its key `id` plus a payload standing for the other
JSON fields (which the delete path never inspects). -/
structure Rec where
  id : String
  payload : String
deriving DecidableEq, Repr

/-- Source `LocalStorageAdapter.delete(storeName, id)`: read the collection
blob (an object keyed by id, embedded as an association list),
`delete store[id]`, write the blob back, return `true`.  The `catch`
branch returns `false` only on an environmental exception of the
key/value store (e.g. quota), threaded here as the `ok` oracle; in that
case the stored blob is left as it was. -/
def lsDelete (store : List (String × Rec)) (ok : Bool) (id : String) :
    Bool × List (String × Rec) :=
  if ok then (true, store.filter (fun kv => kv.fst ≠ id)) else (false, store)

/-- Source `IndexedDBAdapter.delete(storeName, id)`: `db[storeName].delete(id)`
removes the record with that key (a no-op when the key is absent) and
the adapter returns `true`; a caught database error (`ok = false`)
yields `false` with the collection untouched. -/
def idbDelete (store : List Rec) (ok : Bool) (id : String) :
    Bool × List Rec :=
  if ok then (true, store.filter (fun r => r.id ≠ id)) else (false, store)

/-- C8: adapter `delete` is idempotent, in both adapters: when the
underlying browser store operation itself succeeds, deleting an id that
is absent from the collection still reports success (and leaves the
collection as it was), and calling `delete(id)` twice in a row yields
the same post-state and the same success result as calling it once. -/
theorem adapter_delete_idempotent (ls : List (String × Rec))
    (db : List Rec) (id : String) :
    ((∀ kv ∈ ls, kv.fst ≠ id) → lsDelete ls true id = (true, ls)) ∧
    ((∀ r ∈ db, r.id ≠ id) → idbDelete db true id = (true, db)) ∧
    lsDelete (lsDelete ls true id).2 true id = lsDelete ls true id ∧
    idbDelete (idbDelete db true id).2 true id = idbDelete db true id := by
  have hls2 : (ls.filter (fun kv => kv.fst ≠ id)).filter (fun kv => kv.fst ≠ id) =
      ls.filter (fun kv => kv.fst ≠ id) :=
    List.filter_eq_self.mpr (fun kv hkv => (List.mem_filter.mp hkv).2)
  have hdb2 : (db.filter (fun r => r.id ≠ id)).filter (fun r => r.id ≠ id) =
      db.filter (fun r => r.id ≠ id) :=
    List.filter_eq_self.mpr (fun r hr => (List.mem_filter.mp hr).2)
  refine ⟨fun h => ?_, fun h => ?_, ?_, ?_⟩
  · have hfix : ls.filter (fun kv => kv.fst ≠ id) = ls :=
      List.filter_eq_self.mpr (by simpa using h)
    simp [lsDelete, hfix]
    exact fun a b hab => h (a, b) hab
  · have hfix : db.filter (fun r => r.id ≠ id) = db :=
      List.filter_eq_self.mpr (by simpa using h)
    simp [idbDelete, hfix]
    exact h
  · simp [lsDelete, hls2]
  · simp [idbDelete, hdb2]

/-- Witness for `adapter_delete_idempotent` at concrete collections. -/
theorem adapter_delete_idempotent_witness :
    lsDelete [("a", ⟨"a", "p"⟩)] true "absent" = (true, [("a", ⟨"a", "p"⟩)]) ∧
    idbDelete [⟨"a", "p"⟩] true "absent" = (true, [⟨"a", "p"⟩]) ∧
    lsDelete (lsDelete [("a", ⟨"a", "p"⟩)] true "absent").2 true "absent" =
      lsDelete [("a", ⟨"a", "p"⟩)] true "absent" ∧
    idbDelete (idbDelete [⟨"a", "p"⟩] true "absent").2 true "absent" =
      idbDelete [⟨"a", "p"⟩] true "absent" := by
  have h := adapter_delete_idempotent [("a", ⟨"a", "p"⟩)] [⟨"a", "p"⟩] "absent"
  exact ⟨h.1 (by decide), h.2.1 (by decide), h.2.2.1, h.2.2.2⟩

end Adapter

namespace CardStore

/-- A card record, with the §3 schema fields the store operations read
and write; the remaining JSON fields behave exactly like `title` under
the object spreads below. -/
structure Card where
  id : String
  columnId : String
  title : String
  position : Int
  updatedAt : Int
deriving DecidableEq, Repr

/-- A partial-field update (the `updates` argument of `updateCard` /
`batchUpdateCards`): a field that is absent keeps the record's value, a
field that is present overwrites it. -/
structure CardPatch where
  id : Option String
  columnId : Option String
  title : Option String
  position : Option Int
deriving DecidableEq, Repr

/-- The object spread `{ ...c, ...updates, updatedAt: Date.now() }`:
fields of `updates` win over fields of `c`, and `updatedAt` is always
overwritten last with the current time. -/
def mergeCard (c : Card) (p : CardPatch) (now : Int) : Card :=
  { id := p.id.getD c.id
    columnId := p.columnId.getD c.columnId
    title := p.title.getD c.title
    position := p.position.getD c.position
    updatedAt := now }

/-- An entry of the `cardUpdates` argument of `batchUpdateCards`
(`{id, updates}`). -/
structure CardUpdate where
  id : String
  updates : CardPatch
deriving DecidableEq, Repr

/-- The result of a JavaScript `await`: a resolved value or a thrown
exception. -/
inductive JsResult (α : Type) where
  | ok (value : α)
  | thrown (message : String)
deriving DecidableEq, Repr

/-- The card store's state together with its persistence pipeline.
`cards` and `error` are the zustand slice of `cardStore.js`; `pending`
is the single `createDebouncedPersist('cards', 300)` timer slot shared
by the whole store (each schedule call runs `clearTimeout` on the
previous timer and replaces its payload); `writes` logs every
`storageService.save('cards', data)` a fired timer has performed;
`storage` is the adapter's `cards` collection, keyed by `id`. -/
structure StoreState where
  cards : List Card
  error : Option String
  pending : Option Card
  writes : List Card
  storage : List Card
deriving DecidableEq, Repr

/-- Source `debouncedPersist(data)`: clear any pending timer and start a new
one carrying `data` — the snapshot taken at schedule time. -/
def debouncedPersist (st : StoreState) (data : Card) : StoreState :=
  { st with pending := some data }

/-- Source `db.cards.put(data)`: upsert by key. -/
def putById (storage : List Card) (c : Card) : List Card :=
  if storage.any (fun r => r.id = c.id) then
    storage.map (fun r => if r.id = c.id then c else r)
  else storage ++ [c]

/-- The debounce window elapsing with no further schedule call: the
timer fires once and its callback runs
`storageService.save('cards', data)` with the scheduled payload. -/
def fireDebounce (st : StoreState) : StoreState :=
  match st.pending with
  | some data =>
      { st with
          pending := none
          writes := st.writes ++ [data]
          storage := putById st.storage data }
  | none => st

/-- Source `updateCard(cardId, updates)` from `cardStore.js`: merge the partial
fields into every matching in-memory card (bumping `updatedAt`), then
schedule a debounced persist of the updated record, found back by id. -/
def updateCard (st : StoreState) (cardId : String) (updates : CardPatch)
    (now : Int) : StoreState :=
  let updatedCards := st.cards.map (fun c =>
    if c.id = cardId then mergeCard c updates now else c)
  match updatedCards.find? (fun c => c.id = cardId) with
  | some updatedCard =>
      debouncedPersist { st with cards := updatedCards } updatedCard
  | none => { st with cards := updatedCards }

/-- Source `batchUpdateCards(cardUpdates)` from `cardStore.js`: one pass over
the in-memory collection; every card that has an entry in `cardUpdates`
(first match by id) is merged and immediately passed to
`debouncedPersist` — each such call replacing the store's single
pending timer. -/
def batchUpdateCards (st : StoreState) (cardUpdates : List CardUpdate)
    (now : Int) : StoreState :=
  let r := st.cards.foldl
    (fun (acc : List Card × Option Card) (card : Card) =>
      match cardUpdates.find? (fun u => u.id = card.id) with
      | some u => (acc.1 ++ [mergeCard card u.updates now],
                   some (mergeCard card u.updates now))
      | none => (acc.1 ++ [card], acc.2))
    ([], st.pending)
  { st with cards := r.1, pending := r.2 }

/-- Source `IndexedDBAdapter.delete('cards', id)`: the Dexie delete wrapped in
`try`/`catch` — on an underlying database failure (`dbOk = false`) the
error is caught, `false` is returned and the collection is untouched;
the adapter never throws. -/
def adapterDeleteCards (storage : List Card) (dbOk : Bool) (id : String) :
    Bool × List Card :=
  if dbOk then (true, storage.filter (fun c => c.id ≠ id)) else (false, storage)

/-- Source `storageService.delete('cards', id)`: delegates to the adapter, so
it always resolves with the adapter's success flag and never throws. -/
def storageServiceDelete (storage : List Card) (dbOk : Bool) (id : String) :
    JsResult (Bool × List Card) :=
  JsResult.ok (adapterDeleteCards storage dbOk id)

/-- Source `deleteCard(cardId)` from `cardStore.js`: `await
storageService.delete('cards', cardId)` — the debounce timer is not
involved — then remove the card from the in-memory collection.  The
`catch` branch (set the error slot, leave `cards` alone) runs only when
the awaited call throws; the resolved success flag is never inspected. -/
def deleteCard (st : StoreState) (dbOk : Bool) (cardId : String) : StoreState :=
  match storageServiceDelete st.storage dbOk cardId with
  | .ok (_, storage1) =>
      { st with
          storage := storage1
          cards := st.cards.filter (fun c => c.id ≠ cardId) }
  | .thrown message => { st with error := some message }

/-- The in-memory collection after `batchUpdateCards`' single pass, as a
plain map: every card with an entry in `ups` merged, the others kept. -/
def mergedCards (cards : List Card) (ups : List CardUpdate) (now : Int) :
    List Card :=
  cards.map (fun c =>
    match ups.find? (fun u => u.id = c.id) with
    | some u => mergeCard c u.updates now
    | none => c)

/-- The merged records `batchUpdateCards` passes to `debouncedPersist`,
in pass order. -/
def changedCards (cards : List Card) (ups : List CardUpdate) (now : Int) :
    List Card :=
  cards.filterMap (fun c =>
    (ups.find? (fun u => u.id = c.id)).map (fun u => mergeCard c u.updates now))

end CardStore

namespace CardStore

theorem getLast?_or_cons (l : List α) (x : α) (p : Option α) :
    ((x :: l).getLast?).or p = (l.getLast?).or (some x) := by
  cases l with
  | nil => rfl
  | cons b t =>
      have h1 : (x :: b :: t).getLast? = (b :: t).getLast? := rfl
      have h2 : ∃ y, (b :: t).getLast? = some y :=
        ⟨(b :: t).getLast (by simp), List.getLast?_eq_getLast _ _⟩
      obtain ⟨y, hy⟩ := h2
      rw [h1, hy]
      rfl

theorem batch_foldl_characterization (ups : List CardUpdate) (now : Int)
    (cards : List Card) :
    ∀ (acc : List Card) (p : Option Card),
      cards.foldl
        (fun (acc : List Card × Option Card) (card : Card) =>
          match ups.find? (fun u => u.id = card.id) with
          | some u => (acc.1 ++ [mergeCard card u.updates now],
                       some (mergeCard card u.updates now))
          | none => (acc.1 ++ [card], acc.2))
        (acc, p) =
      (acc ++ mergedCards cards ups now,
       ((changedCards cards ups now).getLast?).or p) := by
  induction cards with
  | nil =>
      intro acc p
      simp [mergedCards, changedCards]
  | cons c cards ih =>
      intro acc p
      cases hf : ups.find? (fun u => u.id = c.id) with
      | some u =>
          simp only [List.foldl_cons, hf]
          rw [ih]
          simp [mergedCards, changedCards, hf, getLast?_or_cons]
      | none =>
          simp only [List.foldl_cons, hf]
          rw [ih]
          simp [mergedCards, changedCards, hf]

/-- C1 (amended): `batchUpdateCards` applies every merge to the
in-memory collection in one pass and calls the debounced persist once
per changed record — but all those calls share the store's single
timer/payload slot, so after the debounce window elapses with no
further calls exactly one record is written: the changed record whose
persist was scheduled last (the last changed record in collection
order), with its merged content.  The other changed records are not
written by this window. -/
theorem batchUpdate_one_pass_single_write (st : StoreState)
    (ups : List CardUpdate) (now : Int) (hpending : st.pending = none) :
    (batchUpdateCards st ups now).cards = mergedCards st.cards ups now ∧
    (batchUpdateCards st ups now).pending =
      (changedCards st.cards ups now).getLast? ∧
    (fireDebounce (batchUpdateCards st ups now)).writes =
      st.writes ++ (changedCards st.cards ups now).getLast?.toList := by
  have hb : batchUpdateCards st ups now =
      { st with
          cards := [] ++ mergedCards st.cards ups now
          pending := ((changedCards st.cards ups now).getLast?).or st.pending } := by
    unfold batchUpdateCards
    rw [batch_foldl_characterization ups now st.cards [] st.pending]
  rw [hb, hpending, Option.or_none]
  refine ⟨by simp, rfl, ?_⟩
  cases hlast : (changedCards st.cards ups now).getLast? with
  | none => simp [fireDebounce, hlast]
  | some d => simp [fireDebounce, hlast]

def cardA : Card := ⟨"c1", "col1", "t1", 0, 0⟩

def cardB : Card := ⟨"c2", "col1", "t2", 1, 0⟩

def patchA : CardPatch := ⟨none, none, some "t1x", none⟩

def patchB : CardPatch := ⟨none, none, some "t2x", none⟩

def batchState : StoreState := ⟨[cardA, cardB], none, none, [], [cardA, cardB]⟩

def batchUps : List CardUpdate := [⟨"c1", patchA⟩, ⟨"c2", patchB⟩]

/-- Witness for `batchUpdate_one_pass_single_write` at a concrete
two-record batch. -/
theorem batchUpdate_one_pass_single_write_witness :
    batchState.pending = none ∧
    ((batchUpdateCards batchState batchUps 5).cards =
      mergedCards batchState.cards batchUps 5 ∧
    (batchUpdateCards batchState batchUps 5).pending =
      (changedCards batchState.cards batchUps 5).getLast? ∧
    (fireDebounce (batchUpdateCards batchState batchUps 5)).writes =
      batchState.writes ++
        (changedCards batchState.cards batchUps 5).getLast?.toList) :=
  ⟨rfl, batchUpdate_one_pass_single_write batchState batchUps 5 rfl⟩

/-- C1 counterexample: a `batchUpdateCards` call touching the two
distinct existing records `"c1"` and `"c2"`; both merges land in memory
in one pass, but after the debounce window elapses with no further
calls only the last-scheduled record `"c2"` has been written — the
merged `"c1"` record was never persisted, refuting "each of the n
changed records has been written to storage exactly once". -/
theorem batchUpdate_counterexample :
    cardA ∈ batchState.cards ∧ cardB ∈ batchState.cards ∧
    cardA.id ≠ cardB.id ∧
    (batchUpdateCards batchState batchUps 5).cards =
      [mergeCard cardA patchA 5, mergeCard cardB patchB 5] ∧
    (fireDebounce (batchUpdateCards batchState batchUps 5)).writes =
      [mergeCard cardB patchB 5] ∧
    mergeCard cardA patchA 5 ∉
      (fireDebounce (batchUpdateCards batchState batchUps 5)).writes := by
  decide

end CardStore

namespace CardStore

theorem find?_map_merge (l : List Card) (cid : String) (u : CardPatch)
    (t : Int) (c : Card) (hu : u.id = none)
    (h : l.find? (fun x => x.id = cid) = some c) :
    (l.map (fun x => if x.id = cid then mergeCard x u t else x)).find?
      (fun x => x.id = cid) = some (mergeCard c u t) := by
  induction l with
  | nil => simp at h
  | cons a l ih =>
      by_cases ha : a.id = cid
      · rw [List.find?_cons_of_pos _ (by simpa using ha)] at h
        have hca : c = a := (Option.some.inj h).symm
        subst hca
        rw [List.map_cons, if_pos ha,
          List.find?_cons_of_pos _ (by simp [mergeCard, hu, ha])]
      · rw [List.find?_cons_of_neg _ (by simpa using ha)] at h
        rw [List.map_cons, if_neg ha,
          List.find?_cons_of_neg _ (by simpa using ha)]
        exact ih h

theorem updateCard_found (st : StoreState) (cid : String) (u : CardPatch)
    (t : Int) (m : Card)
    (hfind : (st.cards.map (fun x =>
      if x.id = cid then mergeCard x u t else x)).find?
        (fun x => x.id = cid) = some m) :
    updateCard st cid u t =
      { st with
          cards := st.cards.map (fun x =>
            if x.id = cid then mergeCard x u t else x)
          pending := some m } := by
  unfold updateCard
  simp only [hfind]
  rfl

/-- C3: updates `U1` then `U2` applied to the same record within one
debounce window produce exactly one physical write for it after the
window — the `writes` log grows by a single entry and the timer slot is
drained — and the written content equals the result of applying `U2`
after `U1` (carrying the later timestamp), not `U1` alone. -/
theorem updateCard_coalesces (st : StoreState) (cid : String)
    (u1 u2 : CardPatch) (t1 t2 : Int) (c : Card)
    (hfind : st.cards.find? (fun x => x.id = cid) = some c)
    (h1 : u1.id = none) (h2 : u2.id = none) :
    (fireDebounce (updateCard (updateCard st cid u1 t1) cid u2 t2)).writes =
      st.writes ++ [mergeCard (mergeCard c u1 t1) u2 t2] ∧
    (fireDebounce (updateCard (updateCard st cid u1 t1) cid u2 t2)).pending =
      none := by
  have hf1 := find?_map_merge st.cards cid u1 t1 c h1 hfind
  have e1 := updateCard_found st cid u1 t1 (mergeCard c u1 t1) hf1
  have hf2 := find?_map_merge (updateCard st cid u1 t1).cards cid u2 t2
    (mergeCard c u1 t1) h2 (by rw [e1]; exact hf1)
  have e2 := updateCard_found (updateCard st cid u1 t1) cid u2 t2
    (mergeCard (mergeCard c u1 t1) u2 t2) hf2
  rw [e2, e1]
  simp [fireDebounce]

def updState : StoreState :=
  ⟨[⟨"c1", "col1", "t1", 0, 0⟩], none, none, [], [⟨"c1", "col1", "t1", 0, 0⟩]⟩

def updPatch1 : CardPatch := ⟨none, none, some "first", none⟩

def updPatch2 : CardPatch := ⟨none, some "col2", none, none⟩

/-- Witness for `updateCard_coalesces` at a concrete record and two
concrete patches. -/
theorem updateCard_coalesces_witness :
    updState.cards.find? (fun x => x.id = "c1") =
      some ⟨"c1", "col1", "t1", 0, 0⟩ ∧
    updPatch1.id = none ∧ updPatch2.id = none ∧
    ((fireDebounce
        (updateCard (updateCard updState "c1" updPatch1 3) "c1" updPatch2 7)).writes =
      updState.writes ++
        [mergeCard (mergeCard ⟨"c1", "col1", "t1", 0, 0⟩ updPatch1 3) updPatch2 7] ∧
    (fireDebounce
        (updateCard (updateCard updState "c1" updPatch1 3) "c1" updPatch2 7)).pending =
      none) :=
  ⟨by decide, rfl, rfl,
    updateCard_coalesces updState "c1" updPatch1 updPatch2 3 7
      ⟨"c1", "col1", "t1", 0, 0⟩ (by decide) rfl rfl⟩

def delCard : Card := ⟨"c9", "col1", "t", 0, 0⟩

def delState : StoreState := ⟨[delCard], none, none, [], [delCard]⟩

/-- C2: the failing input — the adapter's underlying database delete
fails, so the storage layer signals failure by resolving `false` (the
adapter catches the error and never throws).  `deleteCard` ignores the
resolved flag, so it still removes the record from the in-memory
collection and leaves the error slot empty; the behaviour the claim
(and the store's own unreachable `catch` branch) prescribes — memory
untouched, error set — does not occur.  Storage itself is unchanged, and
the success path would have removed the record from both. -/
theorem deleteCard_ignores_signalled_failure :
    (adapterDeleteCards delState.storage false "c9").1 = false ∧
    (adapterDeleteCards delState.storage false "c9").2 = delState.storage ∧
    (deleteCard delState false "c9").cards = [] ∧
    delState.cards = [delCard] ∧
    (deleteCard delState false "c9").error = none ∧
    (deleteCard delState true "c9").cards = [] ∧
    (deleteCard delState true "c9").storage = [] ∧
    (deleteCard delState true "c9").pending = delState.pending := by
  decide

end CardStore

namespace Cascade

/-- A child entity: a column (`parentId` is its `boardId`) or a card
(`parentId` is its `columnId`); the delete paths only read these two
fields. -/
structure Entity where
  id : String
  parentId : String
deriving DecidableEq, Repr

/-- Combined application state for the delete paths: the in-memory
collections (`mem…` — the reducer state of `state/store.js` and the
board store slice) and the IndexedDB collections (`db…`). -/
structure AppState where
  memBoards : List String
  memColumns : List Entity
  memCards : List Entity
  dbBoards : List String
  dbColumns : List Entity
  dbCards : List Entity
deriving DecidableEq, Repr

/-- Source `db[collection].delete(id)`: remove the record stored under the
key, a no-op when the key is absent. -/
def dbDelete (l : List Entity) (id : String) : List Entity :=
  l.filter (fun e => e.id ≠ id)

/-- Source `cardActions.deleteCard(cardId)` from the cards state-actions
module (the full variant exporting `createCard`/`deleteCard`/`loadCards`,
re-exported by `state/store.js`): `deleteFromIndexedDB('cards', cardId)`
— delete the record from the `cards` collection; nothing else. -/
def deleteCardAction (s : AppState) (cardId : String) : AppState :=
  { s with dbCards := dbDelete s.dbCards cardId }

/-- One iteration of `handleDeleteColumn`'s card loop in
`BoardPage.js`: `await cardActions.deleteCard(card.id)` followed by
`dispatch(DELETE_CARD, card.id)` (the reducer filters `cards` by id). -/
def deleteCardAndDispatch (s : AppState) (cardId : String) : AppState :=
  let s1 := deleteCardAction s cardId
  { s1 with memCards := s1.memCards.filter (fun c => c.id ≠ cardId) }

/-- The card loop of `handleDeleteColumn`, folded left over
`cardsToDelete` in collection order. -/
def cardLoop (s : AppState) (toDelete : List Entity) : AppState :=
  toDelete.foldl (fun acc card => deleteCardAndDispatch acc card.id) s

/-- Source `handleDeleteColumn(columnId)` from `BoardPage.js`: delete every
in-memory card of the column (storage delete then reducer dispatch, one
card at a time), then `columnActions.deleteColumn(columnId)`
(`deleteFromIndexedDB('columns', id)`) and `dispatch(DELETE_COLUMN)`. -/
def handleDeleteColumn (s : AppState) (columnId : String) : AppState :=
  let s1 := cardLoop s (s.memCards.filter (fun c => c.parentId = columnId))
  let s2 := { s1 with dbColumns := dbDelete s1.dbColumns columnId }
  { s2 with memColumns := s2.memColumns.filter (fun c => c.id ≠ columnId) }

/-- Source `deleteBoard(boardId)` of the boards state-actions module
(imported by `Sidebar.js` as `deleteBoardAction`):
`deleteFromIndexedDB('boards', boardId)` — it deletes only the board
record; no column or card, in memory or storage, is touched. -/
def deleteBoardAction (s : AppState) (boardId : String) : AppState :=
  { s with dbBoards := s.dbBoards.filter (fun x => x ≠ boardId) }

/-- Source `deleteBoard(boardId)` from `boardStore.js`: persist the board
record's deletion immediately, then remove it from the in-memory board
list. -/
def boardStoreDeleteBoard (s : AppState) (boardId : String) : AppState :=
  { s with
      dbBoards := s.dbBoards.filter (fun b => b ≠ boardId)
      memBoards := s.memBoards.filter (fun b => b ≠ boardId) }

/-- Source `handleDeleteBoard(boardId)` from `Sidebar.js`: the board-only
`deleteBoard` action of the boards state module, then the board store's
own `deleteBoard`.  Neither step reaches the board's columns or their
cards. -/
def handleDeleteBoard (s : AppState) (boardId : String) : AppState :=
  boardStoreDeleteBoard (deleteBoardAction s boardId) boardId

/-- A concrete state: one board `b1` with one column `col1` and one card
`k1`, present in memory and in storage. -/
def boardState : AppState :=
  ⟨["b1"], [⟨"col1", "b1"⟩], [⟨"k1", "col1"⟩],
   ["b1"], [⟨"col1", "b1"⟩], [⟨"k1", "col1"⟩]⟩

/-- C4: at the failing input — board `b1` owning column `col1` which owns
card `k1`, all present in memory and storage — the complete board-delete
path (`Sidebar.handleDeleteBoard`: the boards state module's
record-only `deleteBoard`, then `boardStore.deleteBoard`) removes only
the board record from memory and storage; the column and its card
survive in all four collections, contradicting the cascade the claim
(and the data model's ownership rule) prescribes.  The column-delete
path, by contrast, does cascade to the column's cards, as the claim's
parenthetical says. -/
theorem board_delete_does_not_cascade :
    (handleDeleteBoard boardState "b1").memBoards = [] ∧
    (handleDeleteBoard boardState "b1").dbBoards = [] ∧
    (handleDeleteBoard boardState "b1").memColumns = [⟨"col1", "b1"⟩] ∧
    (handleDeleteBoard boardState "b1").dbColumns = [⟨"col1", "b1"⟩] ∧
    (handleDeleteBoard boardState "b1").memCards = [⟨"k1", "col1"⟩] ∧
    (handleDeleteBoard boardState "b1").dbCards = [⟨"k1", "col1"⟩] ∧
    (handleDeleteColumn boardState "col1").memCards = [] ∧
    (handleDeleteColumn boardState "col1").dbCards = [] ∧
    (handleDeleteColumn boardState "col1").memColumns = [] ∧
    (handleDeleteColumn boardState "col1").dbColumns = [] := by
  decide

end Cascade
